import Mathlib

/-!
Verification development for the cointop10-websocket candle bridge.

The development shallowly embeds the two components the properties below
are about:

* the timeframe aggregator (`timeframeToMinutes`, `convertToTargetTimeframe`,
  `processCandle`) from the "1m to any timeframe" variant of the bridge, and
* the subscription / connection registries and the HTTP connect, disconnect
  and reconnect logic (`connectReq`, `disconnectReq`, `connectExchange`,
  `openEvent`, `reconnectTimerFire`) from `src/index.js`.

JS floating-point numbers are modelled as rationals (the properties at stake
concern which candles and which fields enter the fold, not rounding), JS
strings used as map keys are modelled as lists of characters so that the
textual `startsWith` prefix scans of the source can be reasoned about
character by character, and the JS `Map` / `Set` pair is modelled as an
association list of duplicate-free lists in insertion order.
-/

namespace CoinTop

/-- JS strings (map keys, request fields) modelled as lists of characters. -/
abbrev Str := List Char

/-- A finalized OHLCV candle record as built by the message handlers.
The JS field `open` is called `open_` here because `open` is a Lean keyword. -/
structure Candle where
  exchange : String
  symbol : String
  timeframe : String
  timestamp : Int
  open_ : ℚ
  high : ℚ
  low : ℚ
  close : ℚ
  volume : ℚ
  deriving DecidableEq

/-- `timeframeToMinutes`: the supported-timeframe table with fallback 1
(`map[timeframe] || 1`). -/
def timeframeToMinutes (timeframe : String) : Nat :=
  if timeframe = "1m" then 1
  else if timeframe = "5m" then 5
  else if timeframe = "15m" then 15
  else if timeframe = "30m" then 30
  else if timeframe = "1h" then 60
  else if timeframe = "4h" then 240
  else 1

/-- `convertToTargetTimeframe`: returns `null` when fewer than `minutes`
candles are buffered, otherwise folds the chunk `candles.slice(-minutes)`
(the last `minutes` candles): open/timestamp from the first of the chunk,
close from the last, max of highs, min of lows, sum of volumes, relabelled
with the target timeframe. -/
def convertToTargetTimeframe (candles : List Candle) (targetTimeframe : String) :
    Option Candle :=
  let minutes := timeframeToMinutes targetTimeframe
  if candles.length < minutes then none
  else
    match candles.drop (candles.length - minutes) with
    | [] => none
    | c0 :: rest =>
      some { exchange := c0.exchange
             symbol := c0.symbol
             timeframe := targetTimeframe
             timestamp := c0.timestamp
             open_ := c0.open_
             high := rest.foldl (fun m x => max m x.high) c0.high
             low := rest.foldl (fun m x => min m x.low) c0.low
             close := ((c0 :: rest).getLastD c0).close
             volume := (c0 :: rest).foldl (fun acc x => acc + x.volume) 0 }

/-- A per-(user, exchange, symbol) aggregation buffer entry of `candleBuffers`. -/
structure Buffer where
  candles : List Candle
  targetTimeframe : String
  deriving DecidableEq

/-- The push-then-cap part of `processCandle`: append the incoming candle,
then, if the buffer exceeds `requiredCandles * 2`, keep only the last
`requiredCandles * 2` candles (`slice(-requiredCandles * 2)`). -/
def pushCapped (buf : Buffer) (candle1m : Candle) (targetTimeframe : String) :
    List Candle :=
  let pushed := buf.candles ++ [candle1m]
  let required := timeframeToMinutes targetTimeframe
  if pushed.length > required * 2 then pushed.drop (pushed.length - required * 2)
  else pushed

/-- `processCandle`: push and cap, then, when at least `requiredCandles`
candles are buffered, convert and drop the first `requiredCandles` candles
(`buffer.candles.slice(requiredCandles)`); the converted candle (if any)
is the one sent to the worker. -/
def processCandle (buf : Buffer) (candle1m : Candle) (targetTimeframe : String) :
    Buffer × Option Candle :=
  let cs := pushCapped buf candle1m targetTimeframe
  let required := timeframeToMinutes targetTimeframe
  if required ≤ cs.length then
    match convertToTargetTimeframe cs targetTimeframe with
    | some converted => ({ buf with candles := cs.drop required }, some converted)
    | none => ({ buf with candles := cs }, none)
  else ({ buf with candles := cs }, none)

/-- The specification's description of a derived candle obtained by folding
a (nonempty) chunk of base candles: open, timestamp from the first candle,
close from the last, high a member of and an upper bound for the highs,
low a member of and a lower bound for the lows, volume the sum of volumes,
timeframe the target timeframe. -/
def IsFoldOf (d : Candle) (chunk : List Candle) (targetTimeframe : String) : Prop :=
  match chunk with
  | [] => False
  | c0 :: rest =>
    d.exchange = c0.exchange ∧ d.symbol = c0.symbol ∧
    d.timeframe = targetTimeframe ∧
    d.timestamp = c0.timestamp ∧ d.open_ = c0.open_ ∧
    d.close = ((c0 :: rest).getLastD c0).close ∧
    d.volume = ((c0 :: rest).map Candle.volume).sum ∧
    d.high ∈ (c0 :: rest).map Candle.high ∧
    (∀ x ∈ (c0 :: rest).map Candle.high, x ≤ d.high) ∧
    d.low ∈ (c0 :: rest).map Candle.low ∧
    (∀ x ∈ (c0 :: rest).map Candle.low, d.low ≤ x)

/-- Every branch of the timeframe table yields at least one base candle. -/
theorem one_le_timeframeToMinutes (tf : String) : 1 ≤ timeframeToMinutes tf := by
  unfold timeframeToMinutes
  split_ifs <;> omega

theorem foldl_max_mem (l : List ℚ) (a : ℚ) : l.foldl max a ∈ a :: l := by
  induction l generalizing a with
  | nil => simp
  | cons b t ih =>
    rw [List.foldl_cons]
    rcases List.mem_cons.mp (ih (max a b)) with h' | h'
    · rw [h']
      rcases max_choice a b with h | h <;> simp [h]
    · exact List.mem_cons_of_mem _ (List.mem_cons_of_mem _ h')

theorem le_foldl_max (l : List ℚ) (a : ℚ) : a ≤ l.foldl max a := by
  induction l generalizing a with
  | nil => simp
  | cons b t ih =>
    rw [List.foldl_cons]
    exact le_trans (le_max_left a b) (ih (max a b))

theorem foldl_max_ub (l : List ℚ) (a : ℚ) : ∀ x ∈ l, x ≤ l.foldl max a := by
  induction l generalizing a with
  | nil => simp
  | cons b t ih =>
    intro x hx
    rw [List.foldl_cons]
    rcases List.mem_cons.mp hx with rfl | h
    · exact le_trans (le_max_right a x) (le_foldl_max t (max a x))
    · exact ih (max a b) x h

theorem foldl_min_mem (l : List ℚ) (a : ℚ) : l.foldl min a ∈ a :: l := by
  induction l generalizing a with
  | nil => simp
  | cons b t ih =>
    rw [List.foldl_cons]
    rcases List.mem_cons.mp (ih (min a b)) with h' | h'
    · rw [h']
      rcases min_choice a b with h | h <;> simp [h]
    · exact List.mem_cons_of_mem _ (List.mem_cons_of_mem _ h')

theorem foldl_min_le (l : List ℚ) (a : ℚ) : l.foldl min a ≤ a := by
  induction l generalizing a with
  | nil => simp
  | cons b t ih =>
    rw [List.foldl_cons]
    exact le_trans (ih (min a b)) (min_le_left a b)

theorem foldl_min_lb (l : List ℚ) (a : ℚ) : ∀ x ∈ l, l.foldl min a ≤ x := by
  induction l generalizing a with
  | nil => simp
  | cons b t ih =>
    intro x hx
    rw [List.foldl_cons]
    rcases List.mem_cons.mp hx with rfl | h
    · exact le_trans (foldl_min_le t (min a x)) (min_le_right a x)
    · exact ih (min a b) x h

/-- When the drop producing the chunk is nonempty, `convertToTargetTimeframe`
returns a candle satisfying the specification-level fold description of that
chunk. -/
theorem convert_chunk_spec (cs : List Candle) (tf : String) (c0 : Candle)
    (rest : List Candle)
    (hlen : timeframeToMinutes tf ≤ cs.length)
    (hchunk : cs.drop (cs.length - timeframeToMinutes tf) = c0 :: rest) :
    ∃ d, convertToTargetTimeframe cs tf = some d ∧ IsFoldOf d (c0 :: rest) tf := by
  have hnot : ¬ cs.length < timeframeToMinutes tf := by omega
  have hconv : convertToTargetTimeframe cs tf =
      some { exchange := c0.exchange
             symbol := c0.symbol
             timeframe := tf
             timestamp := c0.timestamp
             open_ := c0.open_
             high := rest.foldl (fun m x => max m x.high) c0.high
             low := rest.foldl (fun m x => min m x.low) c0.low
             close := ((c0 :: rest).getLastD c0).close
             volume := (c0 :: rest).foldl (fun acc x => acc + x.volume) 0 } := by
    simp only [convertToTargetTimeframe]
    rw [if_neg hnot, hchunk]
  refine ⟨_, hconv, ?_⟩
  · refine ⟨rfl, rfl, rfl, rfl, rfl, rfl, ?_, ?_, ?_, ?_, ?_⟩
    · show (c0 :: rest).foldl (fun acc x => acc + x.volume) 0
        = ((c0 :: rest).map Candle.volume).sum
      rw [List.sum_eq_foldl, List.foldl_map]
    · show rest.foldl (fun m x => max m x.high) c0.high ∈ (c0 :: rest).map Candle.high
      rw [← List.foldl_map]
      simpa using foldl_max_mem (rest.map Candle.high) c0.high
    · show ∀ x ∈ (c0 :: rest).map Candle.high,
        x ≤ rest.foldl (fun m x => max m x.high) c0.high
      rw [← List.foldl_map]
      intro x hx
      rw [List.map_cons] at hx
      rcases List.mem_cons.mp hx with rfl | h
      · exact le_foldl_max (rest.map Candle.high) c0.high
      · exact foldl_max_ub (rest.map Candle.high) c0.high x h
    · show rest.foldl (fun m x => min m x.low) c0.low ∈ (c0 :: rest).map Candle.low
      rw [← List.foldl_map]
      simpa using foldl_min_mem (rest.map Candle.low) c0.low
    · show ∀ x ∈ (c0 :: rest).map Candle.low,
        rest.foldl (fun m x => min m x.low) c0.low ≤ x
      rw [← List.foldl_map]
      intro x hx
      rw [List.map_cons] at hx
      rcases List.mem_cons.mp hx with rfl | h
      · exact foldl_min_le (rest.map Candle.low) c0.low
      · exact foldl_min_lb (rest.map Candle.low) c0.low x h

/-- Demonstration candles used to instantiate the theorems on concrete data. -/
def dc1 : Candle := ⟨"binance", "BTCUSDT", "1m", 1, 1, 11, -1, 101, 1⟩

def dc2 : Candle := ⟨"binance", "BTCUSDT", "1m", 2, 2, 12, -2, 102, 1⟩

def dc3 : Candle := ⟨"binance", "BTCUSDT", "1m", 3, 3, 13, -3, 103, 1⟩

def dc4 : Candle := ⟨"binance", "BTCUSDT", "1m", 4, 4, 14, -4, 104, 1⟩

def dc5 : Candle := ⟨"binance", "BTCUSDT", "1m", 5, 5, 15, -5, 105, 1⟩

def dc6 : Candle := ⟨"binance", "BTCUSDT", "1m", 6, 6, 16, -6, 106, 1⟩

/-- C1: a buffer of exactly `n` consecutive base candles, for a timeframe
requiring `n` base candles, is folded into a derived candle whose open and
openTime come from the first candle, close from the last, high is the maximum
of the highs, low the minimum of the lows, volume the sum of the volumes, and
whose timeframe field is the target timeframe. -/
theorem c1_exact_buffer_fold (c0 : Candle) (rest : List Candle) (tf : String)
    (h : (c0 :: rest).length = timeframeToMinutes tf) :
    ∃ d, convertToTargetTimeframe (c0 :: rest) tf = some d ∧
      IsFoldOf d (c0 :: rest) tf := by
  have hchunk : (c0 :: rest).drop ((c0 :: rest).length - timeframeToMinutes tf)
      = c0 :: rest := by
    rw [h, Nat.sub_self, List.drop_zero]
  exact convert_chunk_spec _ _ _ _ (le_of_eq h.symm) hchunk

/-- Witness for C1 at a concrete 5-candle buffer and the 5m timeframe. -/
theorem c1_exact_buffer_fold_instance :
    ∃ d, convertToTargetTimeframe [dc1, dc2, dc3, dc4, dc5] "5m" = some d ∧
      IsFoldOf d [dc1, dc2, dc3, dc4, dc5] "5m" :=
  c1_exact_buffer_fold dc1 [dc2, dc3, dc4, dc5] "5m" (by decide)

/-- The push-and-cap step never leaves more than `2n` candles in the buffer. -/
theorem pushCapped_length_le (buf : Buffer) (c : Candle) (tf : String) :
    (pushCapped buf c tf).length ≤ timeframeToMinutes tf * 2 := by
  simp only [pushCapped]
  split_ifs with h
  · simp only [List.length_drop]
    omega
  · simp only [List.length_append, List.length_cons, List.length_nil] at h ⊢
    omega

/-- C5: after processing any incoming base candle, an aggregation buffer
holds at most `2n` candles, where `n` is the base-candle count of the
target timeframe. Quantifying over an arbitrary pre-state covers the
buffer as observed after every step of any candle sequence. -/
theorem c5_buffer_never_exceeds_twice_required (buf : Buffer) (c : Candle)
    (tf : String) :
    (processCandle buf c tf).1.candles.length ≤ timeframeToMinutes tf * 2 := by
  have hcap := pushCapped_length_le buf c tf
  simp only [processCandle]
  split_ifs with h
  · cases hconv : convertToTargetTimeframe (pushCapped buf c tf) tf with
    | none => simpa using hcap
    | some d =>
      simp only [hconv, List.length_drop]
      omega
  · simpa using hcap

/-- Counterexample to C2 as stated: with a 5-candle buffer and a sixth
incoming candle at target timeframe 5m, the emitted derived candle opens at
the second candle's open (the fold consumes `slice(-5)`, the most recent
five), not at the oldest candle's open as the claim requires, while the five
candles removed from the front are the oldest five, leaving only the sixth. -/
theorem c2_oldest_fold_counterexample :
    (processCandle ⟨[dc1, dc2, dc3, dc4, dc5], "5m"⟩ dc6 "5m").2.map Candle.open_
        = some dc2.open_ ∧
    dc2.open_ ≠ dc1.open_ ∧
    ([dc1, dc2, dc3, dc4, dc5, dc6].take 5).map Candle.open_
        = [dc1, dc2, dc3, dc4, dc5].map Candle.open_ ∧
    (processCandle ⟨[dc1, dc2, dc3, dc4, dc5], "5m"⟩ dc6 "5m").1.candles
        = [dc6] := by
  decide

/-- C2 (amended): whenever the buffer (after push and cap) holds at least
`n` candles, the step folds the MOST RECENT `n` candles (`slice(-n)`) into
the derived candle and removes exactly `n` candles from the front of the
buffer, retaining any candles beyond them; the folded and the removed
candles coincide only when the buffer holds exactly `n`. -/
theorem c2_folds_most_recent_chunk (buf : Buffer) (c : Candle) (tf : String)
    (h : timeframeToMinutes tf ≤ (pushCapped buf c tf).length) :
    (processCandle buf c tf).1.candles
        = (pushCapped buf c tf).drop (timeframeToMinutes tf) ∧
    ∃ d, (processCandle buf c tf).2 = some d ∧
      IsFoldOf d ((pushCapped buf c tf).drop
        ((pushCapped buf c tf).length - timeframeToMinutes tf)) tf := by
  obtain ⟨c0, rest, hchunk⟩ : ∃ c0 rest,
      (pushCapped buf c tf).drop
        ((pushCapped buf c tf).length - timeframeToMinutes tf) = c0 :: rest := by
    have h1 := one_le_timeframeToMinutes tf
    cases hd : (pushCapped buf c tf).drop
        ((pushCapped buf c tf).length - timeframeToMinutes tf) with
    | nil =>
      have := congrArg List.length hd
      simp only [List.length_drop, List.length_nil] at this
      omega
    | cons a t => exact ⟨a, t, rfl⟩
  obtain ⟨d, hconv, hfold⟩ := convert_chunk_spec _ tf c0 rest h hchunk
  have hproc : processCandle buf c tf =
      ({ buf with candles := (pushCapped buf c tf).drop (timeframeToMinutes tf) },
        some d) := by
    simp only [processCandle]
    rw [if_pos h, hconv]
  rw [hchunk]
  exact ⟨by rw [hproc], d, by rw [hproc], hfold⟩

/-- Witness for the amended C2 on a concrete six-candle buffer. -/
theorem c2_folds_most_recent_chunk_instance :
    (processCandle ⟨[dc1, dc2, dc3, dc4, dc5], "5m"⟩ dc6 "5m").1.candles
        = (pushCapped ⟨[dc1, dc2, dc3, dc4, dc5], "5m"⟩ dc6 "5m").drop
            (timeframeToMinutes "5m") ∧
    ∃ d, (processCandle ⟨[dc1, dc2, dc3, dc4, dc5], "5m"⟩ dc6 "5m").2 = some d ∧
      IsFoldOf d ((pushCapped ⟨[dc1, dc2, dc3, dc4, dc5], "5m"⟩ dc6 "5m").drop
        ((pushCapped ⟨[dc1, dc2, dc3, dc4, dc5], "5m"⟩ dc6 "5m").length
          - timeframeToMinutes "5m")) "5m" :=
  c2_folds_most_recent_chunk ⟨[dc1, dc2, dc3, dc4, dc5], "5m"⟩ dc6 "5m" (by decide)

/-- `Set.add`: insertion-ordered, duplicate-free. -/
def setAdd (w : List Str) (u : Str) : List Str :=
  if u ∈ w then w else w ++ [u]

/-- The subscription key string `exchange-symbol-timeframe`. -/
def keyOf (e s tf : Str) : Str := e ++ '-' :: (s ++ '-' :: tf)

/-- The connection key string `exchange-symbol` (`baseKey`). -/
def baseKeyOf (e s : Str) : Str := e ++ '-' :: s

/-- The scan string `exchange-symbol-` used with `startsWith` to look for
remaining interest in a pair. -/
def exSymPre (e s : Str) : Str := e ++ '-' :: (s ++ ['-'])

/-- The `switch (exchange.toLowerCase())` arms of `connectExchange`:
everything else hits the default arm and opens nothing. -/
def supportedExchange (e : Str) : Bool :=
  let l := e.map Char.toLower
  l == "binance".data || l == "binance-testnet".data ||
    l == "bybit".data || l == "bybit-testnet".data

/-- Global mutable state of `src/index.js`: `userSubscriptions` (Map from
key to Set of user ids), `activeConnections` (keys registered on the open
event), and the WebSocket objects created so far, each tagged with its key
and whether its open event has fired. -/
structure SysState where
  subs : List (Str × List Str)
  active : List Str
  sockets : List (Str × Bool)
  deriving DecidableEq

def initialState : SysState := ⟨[], [], []⟩

/-- `connectExchange`: returns early when the key is already registered in
`activeConnections`; otherwise, for a supported exchange, creates a new
WebSocket (not yet registered — registration happens only in the open
handler); for an unsupported exchange, logs and returns. -/
def connectExchange (st : SysState) (e s : Str) : SysState :=
  if baseKeyOf e s ∈ st.active then st
  else if supportedExchange e then
    { st with sockets := st.sockets ++ [(baseKeyOf e s, false)] }
  else st

/-- The `ws.on('open')` handler of socket `i`: marks it open and registers
its key in `activeConnections` (`Map.set`, replacing any previous value). -/
def openEvent (st : SysState) (i : Nat) : SysState :=
  match st.sockets.get? i with
  | some sk =>
      { st with
          sockets := st.sockets.set i (sk.1, true)
          active := if sk.1 ∈ st.active then st.active
                    else st.active ++ [sk.1] }
  | none => st

/-- Number of sockets for a key whose open event has fired. -/
def liveOpenCount (st : SysState) (k : Str) : Nat :=
  (st.sockets.filter (fun p => p.1 == k && p.2)).length

def mapLookup (m : List (Str × List Str)) (k : Str) : Option (List Str) :=
  (m.find? (fun p => p.1 == k)).map Prod.snd

/-- The subscription-registration part of the `/connect` handler: create the
set for the key if absent, add the user id, report the resulting size. -/
def subscribeStep (m : List (Str × List Str)) (k u : Str) :
    List (Str × List Str) × Nat :=
  match mapLookup m k with
  | some v =>
      (m.map (fun p => if p.1 == k then (p.1, setAdd p.2 u) else p),
        (setAdd v u).length)
  | none => (m ++ [(k, [u])], 1)

/-- Synchronous outcome of a `/connect` or `/disconnect` request: a 400
validation error, success with the subscriber count, or plain success. -/
inductive ReqResult where
  | invalid
  | ok (subscribers : Nat)
  | done
  deriving DecidableEq

/-- The `/connect` handler: reject when any field is falsy (missing or
empty); otherwise register the subscriber, then open a connection unless one
is registered for the `exchange-symbol` base key; respond with success and
the subscriber count in every non-rejected case. -/
def connectReq (st : SysState) (e s tf u : Str) : SysState × ReqResult :=
  if e = [] ∨ s = [] ∨ tf = [] ∨ u = [] then (st, .invalid)
  else
    (if baseKeyOf e s ∈ st.active then
        { st with subs := (subscribeStep st.subs (keyOf e s tf) u).1 }
      else
        connectExchange
          { st with subs := (subscribeStep st.subs (keyOf e s tf) u).1 } e s,
      .ok (subscribeStep st.subs (keyOf e s tf) u).2)

/-- `Map.delete`: drop the (unique) entry for the key. -/
def subsDelete (m : List (Str × List Str)) (k : Str) : List (Str × List Str) :=
  m.filter (fun p => !(p.1 == k))

/-- `Set.delete` applied to the (unique) entry for the key. -/
def subsUpdateErase (m : List (Str × List Str)) (k u : Str) :
    List (Str × List Str) :=
  m.map (fun p => if p.1 == k then (p.1, p.2.erase u) else p)

/-- The `hasOtherSubs` scan of the `/disconnect` handler: some remaining
subscription key starts with the textual `exchange-symbol-` string. -/
def hasOtherSubs (m : List (Str × List Str)) (e s : Str) : Bool :=
  m.any (fun p => (exSymPre e s).isPrefixOf p.1)

/-- The `/disconnect` handler: reject when any field is falsy; otherwise
remove the user from the key's set; when the set becomes empty delete the
key and, unless some remaining subscription key starts with the textual
`exchange-symbol-` scan string, close and remove the connection for the base
key. -/
def disconnectReq (st : SysState) (e s tf u : Str) : SysState × ReqResult :=
  if e = [] ∨ s = [] ∨ tf = [] ∨ u = [] then (st, .invalid)
  else
    match mapLookup st.subs (keyOf e s tf) with
    | none => (st, .done)
    | some v =>
      if (v.erase u).length = 0 then
        if hasOtherSubs (subsDelete st.subs (keyOf e s tf)) e s then
          ({ st with subs := subsDelete st.subs (keyOf e s tf) }, .done)
        else
          ({ st with
              subs := subsDelete st.subs (keyOf e s tf)
              active := st.active.filter (fun a => !(a == baseKeyOf e s)) },
            .done)
      else
        ({ st with subs := subsUpdateErase st.subs (keyOf e s tf) u }, .done)

/-- The interest scan of the `ws.on('close')` reconnect timer: some
subscription key starts with `exchange-symbol-` and has a nonempty set. -/
def hasInterest (m : List (Str × List Str)) (e s : Str) : Bool :=
  m.any (fun p => (exSymPre e s).isPrefixOf p.1 && decide (0 < p.2.length))

/-- The fixed reconnect delay passed to `setTimeout` in the close handler. -/
def closeDelayMs : Nat := 5000

/-- The `ws.on('close')` handler up to scheduling: deregister the key. -/
def onSocketClose (st : SysState) (e s : Str) : SysState :=
  { st with active := st.active.filter (fun a => !(a == baseKeyOf e s)) }

/-- The body of the scheduled reconnect callback, evaluated on the state as
it is when the timer fires (the JS closure reads the live
`userSubscriptions` map): reconnect only if interest remains. -/
def reconnectTimerFire (st : SysState) (e s : Str) : SysState :=
  if hasInterest st.subs e s then connectExchange st e s else st

/-- States reachable from the empty registries by any sequence of subscribe
and unsubscribe requests. -/
inductive Reach : SysState → Prop
  | init : Reach initialState
  | conn (e s tf u : Str) {st : SysState} :
      Reach st → Reach (connectReq st e s tf u).1
  | disc (e s tf u : Str) {st : SysState} :
      Reach st → Reach (disconnectReq st e s tf u).1

/-- Counterexample to C3 as stated: two subscribe requests for the same
(exchange, symbol) pair arriving while the first connection attempt is still
being established each create a WebSocket (the key enters
`activeConnections` only in the open handler), and once both open events
fire, two live sockets exist for the one connection key. -/
theorem c3_duplicate_socket_counterexample :
    liveOpenCount
      (openEvent (openEvent
        ((connectReq ((connectReq initialState
            "binance".data "BTCUSDT".data "1m".data "u1".data).1)
          "binance".data "BTCUSDT".data "5m".data "u2".data).1) 0) 1)
      ("binance-BTCUSDT".data) = 2 := by
  decide

/-- C3 (amended): a second connect request for a key whose connection is
already REGISTERED in `activeConnections` (its open event has fired) is a
no-op on the connection state — no duplicate socket is opened; but while a
previous attempt is still being established, a second request does open a
duplicate socket, since registration happens only in the open handler. -/
theorem c3_registered_connect_noop (st : SysState) (e s tf u : Str)
    (h : baseKeyOf e s ∈ st.active) :
    (connectReq st e s tf u).1.active = st.active ∧
    (connectReq st e s tf u).1.sockets = st.sockets := by
  unfold connectReq
  by_cases hval : e = [] ∨ s = [] ∨ tf = [] ∨ u = []
  · rw [if_pos hval]
    exact ⟨rfl, rfl⟩
  · rw [if_neg hval, if_pos h]
    exact ⟨rfl, rfl⟩

/-- Witness for the amended C3 at a concrete registered connection. -/
theorem c3_registered_connect_noop_instance :
    (connectReq ⟨[], ["binance-BTCUSDT".data], []⟩
        "binance".data "BTCUSDT".data "5m".data "u2".data).1.active
      = ["binance-BTCUSDT".data] ∧
    (connectReq ⟨[], ["binance-BTCUSDT".data], []⟩
        "binance".data "BTCUSDT".data "5m".data "u2".data).1.sockets = [] :=
  c3_registered_connect_noop ⟨[], ["binance-BTCUSDT".data], []⟩
    "binance".data "BTCUSDT".data "5m".data "u2".data (by decide)

/-- Counterexample to C7 as stated: a subscribe request naming the
unsupported exchange kraken is not reported as an error (the response is
success with subscriber count 1) and it mutates the subscription registry. -/
theorem c7_unsupported_exchange_counterexample :
    (connectReq initialState "kraken".data "BTCUSDT".data "5m".data
        "u1".data).2 = ReqResult.ok 1 ∧
    (connectReq initialState "kraken".data "BTCUSDT".data "5m".data
        "u1".data).1.subs ≠ initialState.subs := by
  decide

/-- C7 (amended): a subscribe or unsubscribe request with any empty or
missing field is rejected synchronously with no state mutation; a subscribe
request naming an unsupported exchange is NOT rejected — the subscription
registry is still mutated and success is returned — but no socket is
created and the connection registry is untouched. -/
theorem c7_validation_and_unsupported_exchange (st : SysState)
    (e s tf u : Str) :
    ((e = [] ∨ s = [] ∨ tf = [] ∨ u = []) →
      connectReq st e s tf u = (st, .invalid) ∧
      disconnectReq st e s tf u = (st, .invalid)) ∧
    (¬(e = [] ∨ s = [] ∨ tf = [] ∨ u = []) → supportedExchange e = false →
      (connectReq st e s tf u).1.active = st.active ∧
      (connectReq st e s tf u).1.sockets = st.sockets ∧
      ∃ n, (connectReq st e s tf u).2 = .ok n) := by
  constructor
  · intro h
    constructor
    · unfold connectReq
      rw [if_pos h]
    · unfold disconnectReq
      rw [if_pos h]
  · intro hval hsup
    unfold connectReq
    rw [if_neg hval]
    refine ⟨?_, ?_, _, rfl⟩
    · split_ifs with hmem
      · rfl
      · simp [connectExchange, hmem, hsup]
    · split_ifs with hmem
      · rfl
      · simp [connectExchange, hmem, hsup]

/-- Witness for the amended C7: one rejected empty-field request and one
accepted unsupported-exchange request. -/
theorem c7_validation_and_unsupported_exchange_instance :
    (connectReq initialState [] "BTCUSDT".data "5m".data "u1".data
        = (initialState, .invalid) ∧
      disconnectReq initialState [] "BTCUSDT".data "5m".data "u1".data
        = (initialState, .invalid)) ∧
    ((connectReq initialState "kraken".data "BTCUSDT".data "5m".data
        "u1".data).1.active = initialState.active ∧
      (connectReq initialState "kraken".data "BTCUSDT".data "5m".data
        "u1".data).1.sockets = initialState.sockets ∧
      ∃ n, (connectReq initialState "kraken".data "BTCUSDT".data "5m".data
        "u1".data).2 = .ok n) :=
  ⟨(c7_validation_and_unsupported_exchange initialState [] "BTCUSDT".data
      "5m".data "u1".data).1 (by decide),
    (c7_validation_and_unsupported_exchange initialState "kraken".data
      "BTCUSDT".data "5m".data "u1".data).2 (by decide) (by decide)⟩

/-- The state reached by a single subscribe request of user u2 for the pair
(binance, b-c) at timeframe 5m. -/
def c8TraceState : SysState :=
  (connectReq initialState "binance".data "b-c".data "5m".data "u2".data).1

/-- Counterexample to C8 as stated: at timer-fire time the registry holds
only the subscription of the pair (binance, b-c) — so no subscriber holds
interest in the pair (binance, b) — yet the fired reconnect timer for
(binance, b) still makes a new connection attempt (a socket for the base
key binance-b is created), because the re-evaluated check is the textual
prefix scan for binance-b-, which the key binance-b-c-5m matches. -/
theorem c8_misattributed_reconnect_counterexample :
    c8TraceState.subs
      = [(keyOf "binance".data "b-c".data "5m".data, ["u2".data])] ∧
    "b-c".data ≠ "b".data ∧
    (reconnectTimerFire c8TraceState "binance".data "b".data).sockets
      = c8TraceState.sockets ++ [(baseKeyOf "binance".data "b".data, false)] := by
  decide

theorem setAdd_mem (w : List Str) (u : Str) : u ∈ setAdd w u := by
  unfold setAdd
  split_ifs with h
  · exact h
  · exact List.mem_append_right _ (List.mem_singleton.mpr rfl)

theorem setAdd_of_mem {w : List Str} {u : Str} (h : u ∈ w) : setAdd w u = w := by
  unfold setAdd
  exact if_pos h

theorem setAdd_ne_nil (w : List Str) (u : Str) : setAdd w u ≠ [] := by
  unfold setAdd
  split_ifs with h
  · rintro rfl
    simp at h
  · simp

theorem map_eq_self_of {α : Type} (l : List α) (f : α → α)
    (h : ∀ a ∈ l, f a = a) : l.map f = l := by
  induction l with
  | nil => rfl
  | cons a t ih =>
    rw [List.map_cons, h a (List.mem_cons_self a t),
      ih (fun x hx => h x (List.mem_cons_of_mem a hx))]

theorem find?_map_keyfun (m : List (Str × List Str)) (k : Str)
    (g : List Str → List Str) :
    (m.map (fun p => if p.1 == k then (p.1, g p.2) else p)).find?
        (fun p => p.1 == k)
      = (m.find? (fun p => p.1 == k)).map (fun p => (p.1, g p.2)) := by
  induction m with
  | nil => rfl
  | cons a t ih =>
    cases h : (a.1 == k) with
    | true =>
      rw [List.map_cons, if_pos h, List.find?_cons_of_pos,
        List.find?_cons_of_pos]
      · rfl
      · exact h
      · exact h
    | false =>
      have h' : ¬((a.1 == k) = true) := by simp [h]
      rw [List.map_cons, if_neg h', List.find?_cons_of_neg,
        List.find?_cons_of_neg]
      · exact ih
      · simp [h]
      · simp [h]

theorem connectExchange_subs (st : SysState) (e s : Str) :
    (connectExchange st e s).subs = st.subs := by
  unfold connectExchange
  split_ifs <;> rfl

theorem connectReq_parts (st : SysState) (e s tf u : Str)
    (hval : ¬(e = [] ∨ s = [] ∨ tf = [] ∨ u = [])) :
    (connectReq st e s tf u).1.subs
        = (subscribeStep st.subs (keyOf e s tf) u).1 ∧
    (connectReq st e s tf u).2
        = .ok (subscribeStep st.subs (keyOf e s tf) u).2 := by
  unfold connectReq
  rw [if_neg hval]
  refine ⟨?_, rfl⟩
  by_cases hmem : baseKeyOf e s ∈ st.active
  · rw [if_pos hmem]
  · rw [if_neg hmem]
    exact connectExchange_subs _ _ _

theorem subscribeStep_idem (m : List (Str × List Str)) (k u : Str) :
    subscribeStep (subscribeStep m k u).1 k u = subscribeStep m k u := by
  cases h : mapLookup m k with
  | none =>
    have hf : m.find? (fun p => p.1 == k) = none := by
      unfold mapLookup at h
      exact Option.map_eq_none'.mp h
    have hall := List.find?_eq_none.mp hf
    have h2 : mapLookup (m ++ [(k, [u])]) k = some [u] := by
      unfold mapLookup
      rw [List.find?_append, hf]
      rw [List.find?_cons_of_pos _ (by simp)]
      rfl
    simp only [subscribeStep, h, h2]
    refine Prod.ext ?_ ?_
    · show (m ++ [(k, [u])]).map
          (fun p => if p.1 == k then (p.1, setAdd p.2 u) else p)
        = m ++ [(k, [u])]
      rw [List.map_append]
      have hm : m.map (fun p => if p.1 == k then (p.1, setAdd p.2 u) else p)
          = m := by
        refine map_eq_self_of _ _ (fun p hp => ?_)
        rw [if_neg (hall p hp)]
      have hone : [((k : Str), [u])].map
          (fun p => if p.1 == k then (p.1, setAdd p.2 u) else p)
          = [(k, [u])] := by
        rw [List.map_cons, List.map_nil, if_pos (by simp)]
        rw [setAdd_of_mem (List.mem_singleton.mpr rfl)]
      rw [hm, hone]
    · show (setAdd [u] u).length = 1
      rw [setAdd_of_mem (List.mem_singleton.mpr rfl)]
      rfl
  | some v =>
    obtain ⟨q, hfq, hq2⟩ : ∃ q, m.find? (fun p => p.1 == k) = some q ∧
        q.2 = v := by
      unfold mapLookup at h
      obtain ⟨q, hq, hv⟩ := Option.map_eq_some'.mp h
      exact ⟨q, hq, hv⟩
    have h2 : mapLookup
        (m.map (fun p => if p.1 == k then (p.1, setAdd p.2 u) else p)) k
        = some (setAdd v u) := by
      unfold mapLookup
      rw [find?_map_keyfun m k (fun w => setAdd w u), hfq]
      simp [hq2]
    simp only [subscribeStep, h, h2]
    refine Prod.ext ?_ ?_
    · show ((m.map (fun p => if p.1 == k then (p.1, setAdd p.2 u) else p)).map
          (fun p => if p.1 == k then (p.1, setAdd p.2 u) else p))
        = m.map (fun p => if p.1 == k then (p.1, setAdd p.2 u) else p)
      rw [List.map_map]
      refine List.map_congr_left (fun p _ => ?_)
      cases hpk : (p.1 == k) with
      | true =>
        have hp : p.1 = k := by simpa using hpk
        simp [hp, setAdd_of_mem (setAdd_mem p.2 u)]
      | false =>
        have hp : ¬ p.1 = k := by simpa using hpk
        simp [hp]
    · show (setAdd (setAdd v u) u).length = (setAdd v u).length
      rw [setAdd_of_mem (setAdd_mem v u)]

/-- C10: subscribing is idempotent per (exchange, symbol, timeframe,
subscriberId): a second identical subscribe request leaves the subscription
registry unchanged and returns the same subscriber count as the first,
because subscriber identities live in a set. -/
theorem c10_subscribe_idempotent (st : SysState) (e s tf u : Str) :
    (connectReq ((connectReq st e s tf u).1) e s tf u).1.subs
        = (connectReq st e s tf u).1.subs ∧
    (connectReq ((connectReq st e s tf u).1) e s tf u).2
        = (connectReq st e s tf u).2 := by
  by_cases hval : e = [] ∨ s = [] ∨ tf = [] ∨ u = []
  · have h2 : (connectReq st e s tf u).1 = st := by
      unfold connectReq
      rw [if_pos hval]
    rw [h2, h2]
    exact ⟨rfl, rfl⟩
  · obtain ⟨ha, hb⟩ := connectReq_parts st e s tf u hval
    obtain ⟨hc, hd⟩ := connectReq_parts (connectReq st e s tf u).1 e s tf u hval
    constructor
    · rw [hc, ha, subscribeStep_idem, ← ha]
    · rw [hd, ha, subscribeStep_idem, ← hb]

/-- Invariant of the subscription registry: keys are unique (JS `Map`) and
no key maps to an empty subscriber set. -/
def RegistryInv (m : List (Str × List Str)) : Prop :=
  (m.map Prod.fst).Nodup ∧ ∀ p ∈ m, p.2 ≠ []

theorem map_keyfun_fst (m : List (Str × List Str)) (k : Str)
    (g : List Str → List Str) :
    (m.map (fun p => if p.1 == k then (p.1, g p.2) else p)).map Prod.fst
      = m.map Prod.fst := by
  rw [List.map_map]
  refine List.map_congr_left (fun p _ => ?_)
  by_cases hp : p.1 = k
  · simp [hp]
  · simp [hp]

theorem nodup_find?_mem (m : List (Str × List Str)) (p : Str × List Str)
    (hnd : (m.map Prod.fst).Nodup) (hp : p ∈ m) :
    m.find? (fun r => r.1 == p.1) = some p := by
  induction m with
  | nil => cases hp
  | cons a t ih =>
    rw [List.map_cons, List.nodup_cons] at hnd
    rcases List.mem_cons.mp hp with rfl | hp'
    · rw [List.find?_cons_of_pos]
      simp
    · have hne : ¬ (a.1 == p.1) = true := by
        simp only [beq_iff_eq]
        intro hcontra
        exact hnd.1 (by rw [hcontra]; exact List.mem_map.mpr ⟨p, hp', rfl⟩)
      rw [List.find?_cons_of_neg]
      · exact ih hnd.2 hp'
      · exact hne

theorem subscribeStep_inv (m : List (Str × List Str)) (k u : Str)
    (h : RegistryInv m) : RegistryInv (subscribeStep m k u).1 := by
  cases hl : mapLookup m k with
  | none =>
    have hf : m.find? (fun p => p.1 == k) = none := by
      unfold mapLookup at hl
      exact Option.map_eq_none'.mp hl
    have hall := List.find?_eq_none.mp hf
    simp only [subscribeStep, hl]
    constructor
    · rw [List.map_append, List.nodup_append]
      refine ⟨h.1, by simp, ?_⟩
      intro a ha hb
      simp only [List.map_cons, List.map_nil, List.mem_singleton] at hb
      subst hb
      obtain ⟨p, hp, hpk⟩ := List.mem_map.mp ha
      have hne := hall p hp
      simp only [beq_iff_eq] at hne
      exact hne hpk
    · intro p hp
      rcases List.mem_append.mp hp with h1 | h1
      · exact h.2 p h1
      · rw [List.mem_singleton.mp h1]
        simp
  | some v =>
    simp only [subscribeStep, hl]
    constructor
    · rw [map_keyfun_fst m k (fun w => setAdd w u)]
      exact h.1
    · intro p hp
      obtain ⟨q, hq, hfq⟩ := List.mem_map.mp hp
      by_cases hqk : q.1 = k
      · have hpq : p = (q.1, setAdd q.2 u) := by
          rw [← hfq]
          simp [hqk]
        rw [hpq]
        exact setAdd_ne_nil _ _
      · have hpq : p = q := by
          rw [← hfq]
          simp [hqk]
        rw [hpq]
        exact h.2 q hq

theorem disconnectReq_inv (st : SysState) (e s tf u : Str)
    (h : RegistryInv st.subs) : RegistryInv (disconnectReq st e s tf u).1.subs := by
  unfold disconnectReq
  by_cases hval : (e = [] ∨ s = [] ∨ tf = [] ∨ u = [])
  · rw [if_pos hval]
    exact h
  · rw [if_neg hval]
    cases hl : mapLookup st.subs (keyOf e s tf) with
    | none => exact h
    | some v =>
      simp only [hl]
      by_cases hz : (v.erase u).length = 0
      · rw [if_pos hz]
        have hdel : RegistryInv (subsDelete st.subs (keyOf e s tf)) := by
          constructor
          · exact h.1.sublist ((List.filter_sublist _).map Prod.fst)
          · intro p hp
            exact h.2 p (List.mem_filter.mp hp).1
        by_cases ho : hasOtherSubs (subsDelete st.subs (keyOf e s tf)) e s
        · rw [if_pos ho]
          exact hdel
        · rw [if_neg ho]
          exact hdel
      · rw [if_neg hz]
        constructor
        · show ((st.subs.map
              (fun p => if p.1 == keyOf e s tf then (p.1, p.2.erase u) else p)).map
                Prod.fst).Nodup
          rw [map_keyfun_fst st.subs (keyOf e s tf) (fun w => w.erase u)]
          exact h.1
        · intro p hp
          obtain ⟨q, hq, hfq⟩ := List.mem_map.mp hp
          by_cases hqk : q.1 = keyOf e s tf
          · have hpq : p = (q.1, q.2.erase u) := by
              rw [← hfq]
              simp [hqk]
            obtain ⟨q0, hq0, hq02⟩ : ∃ q0,
                st.subs.find? (fun r => r.1 == keyOf e s tf) = some q0 ∧
                  q0.2 = v := by
              unfold mapLookup at hl
              obtain ⟨q0, hA, hB⟩ := Option.map_eq_some'.mp hl
              exact ⟨q0, hA, hB⟩
            have hfind := nodup_find?_mem st.subs q h.1 hq
            rw [hqk] at hfind
            have hqq0 : q = q0 := by
              have := hfind.symm.trans hq0
              exact Option.some.inj this
            rw [hpq]
            intro hcontra
            apply hz
            rw [← hq02, ← hqq0]
            rw [show q.2.erase u = ([] : List Str) from hcontra]
            rfl
          · have hpq : p = q := by
              rw [← hfq]
              simp [hqk]
            rw [hpq]
            exact h.2 q hq

theorem connectReq_inv (st : SysState) (e s tf u : Str)
    (h : RegistryInv st.subs) : RegistryInv (connectReq st e s tf u).1.subs := by
  by_cases hval : (e = [] ∨ s = [] ∨ tf = [] ∨ u = [])
  · have h2 : (connectReq st e s tf u).1 = st := by
      unfold connectReq
      rw [if_pos hval]
    rw [h2]
    exact h
  · rw [(connectReq_parts st e s tf u hval).1]
    exact subscribeStep_inv _ _ _ h

theorem reach_registry_inv (st : SysState) (h : Reach st) :
    RegistryInv st.subs := by
  induction h with
  | init => exact ⟨List.nodup_nil, fun p hp => absurd hp (List.not_mem_nil p)⟩
  | conn e s tf u hst ih => exact connectReq_inv _ _ _ _ _ ih
  | disc e s tf u hst ih => exact disconnectReq_inv _ _ _ _ _ ih

/-- C6: in every state reachable by any sequence of subscribe and
unsubscribe requests, no subscription key maps to an empty subscriber set:
an unsubscribe that empties a set deletes the key, and subscribe never
creates a key without immediately adding a subscriber. -/
theorem c6_no_empty_subscriber_sets (st : SysState) (h : Reach st) :
    ∀ p ∈ st.subs, p.2 ≠ [] :=
  (reach_registry_inv st h).2

/-- Witness for C6 at the state reached by one subscribe request. -/
theorem c6_no_empty_subscriber_sets_instance :
    (keyOf "binance".data "BTCUSDT".data "1m".data, ["u1".data]).2
      ≠ ([] : List Str) :=
  c6_no_empty_subscriber_sets _
    (Reach.conn "binance".data "BTCUSDT".data "1m".data "u1".data Reach.init)
    _ (by decide)

/-- Cancellation of hyphen-delimited fields: if two concatenations
`a ++ "-" ++ u` and `b ++ "-" ++ v` with hyphen-free `a`, `b` are in the
prefix relation, the fields before the first hyphen agree. -/
theorem hyphen_cancel (a : Str) : ∀ (b u v : Str), '-' ∉ a → '-' ∉ b →
    (a ++ '-' :: u) <+: (b ++ '-' :: v) → a = b ∧ u <+: v := by
  induction a with
  | nil =>
    intro b u v _ hb h
    cases b with
    | nil =>
      simp only [List.nil_append] at h
      exact ⟨rfl, (List.cons_prefix_cons.mp h).2⟩
    | cons c bt =>
      simp only [List.nil_append, List.cons_append] at h
      have h1 := (List.cons_prefix_cons.mp h).1
      exact absurd (by rw [h1]; exact List.mem_cons_self c _) hb
  | cons c at' ih =>
    intro b u v ha hb h
    cases b with
    | nil =>
      simp only [List.cons_append, List.nil_append] at h
      have h1 := (List.cons_prefix_cons.mp h).1
      exact absurd (by rw [← h1]; exact List.mem_cons_self c at') ha
    | cons c' bt =>
      simp only [List.cons_append] at h
      obtain ⟨h1, h2⟩ := List.cons_prefix_cons.mp h
      obtain ⟨h3, h4⟩ := ih bt u v (fun hm => ha (List.mem_cons_of_mem _ hm))
        (fun hm => hb (List.mem_cons_of_mem _ hm)) h2
      exact ⟨by rw [h1, h3], h4⟩

theorem keyOf_eq_pre_append (e s tf : Str) :
    keyOf e s tf = exSymPre e s ++ tf := by
  simp [keyOf, exSymPre]

/-- With hyphen-free exchange and symbol fields, the `startsWith` scan
string of one pair matches the subscription key of another exactly when the
two pairs are equal. -/
theorem exSymPre_prefix_keyOf_iff (e s e' s' tf' : Str)
    (he : '-' ∉ e) (hs : '-' ∉ s) (he' : '-' ∉ e') (hs' : '-' ∉ s') :
    (exSymPre e s).isPrefixOf (keyOf e' s' tf') = true ↔ e = e' ∧ s = s' := by
  rw [List.isPrefixOf_iff_prefix]
  constructor
  · intro h
    unfold exSymPre keyOf at h
    obtain ⟨h1, h2⟩ := hyphen_cancel e e' (s ++ ['-']) (s' ++ '-' :: tf')
      he he' h
    obtain ⟨h3, _⟩ := hyphen_cancel s s' [] tf' hs hs' h2
    exact ⟨h1, h3⟩
  · rintro ⟨rfl, rfl⟩
    rw [keyOf_eq_pre_append]
    exact List.prefix_append _ _

theorem keyOf_tf_inj {e s tf₁ tf₂ : Str} (h : keyOf e s tf₁ = keyOf e s tf₂) :
    tf₁ = tf₂ := by
  unfold keyOf at h
  have h1 := List.append_cancel_left h
  simp only [List.cons.injEq, true_and] at h1
  have h2 := List.append_cancel_left h1
  simp only [List.cons.injEq, true_and] at h2
  exact h2

theorem keyOf_sym_inj {e s₁ s₂ tf₁ tf₂ : Str} (h1 : '-' ∉ s₁) (h2 : '-' ∉ s₂)
    (h : keyOf e s₁ tf₁ = keyOf e s₂ tf₂) : s₁ = s₂ := by
  unfold keyOf at h
  have h3 := List.append_cancel_left h
  simp only [List.cons.injEq, true_and] at h3
  exact (hyphen_cancel s₁ s₂ tf₁ tf₂ h1 h2 (by rw [← h3])).1

/-- The state reached by: subscribe u1 to (binance, b, 1m); the socket for
the pair (binance, b) opens; subscribe u2 to the DIFFERENT pair
(binance, b-c) at 5m; unsubscribe u1 — the last subscriber of (binance, b). -/
def misTraceState : SysState :=
  (disconnectReq
    ((connectReq
      (openEvent
        ((connectReq initialState "binance".data "b".data "1m".data
          "u1".data).1) 0)
      "binance".data "b-c".data "5m".data "u2".data).1)
    "binance".data "b".data "1m".data "u1".data).1

/-- Counterexample to C4 as stated: after the trace of `misTraceState`, the
last subscriber of the pair (binance, b) has unsubscribed — the only
remaining subscription is for the distinct pair (binance, b-c) — yet the
connection for the base key binance-b is still open, because the textual
scan for keys starting with the string binance-b- misattributes the
(binance, b-c) subscription key binance-b-c-5m to the pair (binance, b). -/
theorem c4_prefix_misattribution_counterexample :
    misTraceState.active = [baseKeyOf "binance".data "b".data] ∧
    misTraceState.subs
      = [(keyOf "binance".data "b-c".data "5m".data, ["u2".data])] := by
  decide

/-- C4 (amended): the remaining-interest check scans subscription keys by
the textual `exchange-symbol-` prefix, which can misattribute interest from
a different pair when field values contain hyphens; when the request fields
and the fields underlying every registry key are hyphen-free, the scan is
exact, and then unsubscribing the last remaining subscriber of the pair
(across all timeframes) removes the upstream connection, while unsubscribing
when another timeframe subscription for the same pair remains leaves the
connection registered. -/
theorem c4_pair_teardown_hyphen_free (st : SysState) (e s tf u : Str)
    (hval : ¬(e = [] ∨ s = [] ∨ tf = [] ∨ u = []))
    (he : '-' ∉ e) (hs : '-' ∉ s)
    (hkeys : ∀ p ∈ st.subs, ∃ e' s' tf', p.1 = keyOf e' s' tf' ∧
      '-' ∉ e' ∧ '-' ∉ s') :
    ((∃ v, mapLookup st.subs (keyOf e s tf) = some v ∧ v.erase u = []) →
      (∀ p ∈ st.subs, ∀ tf₂, p.1 = keyOf e s tf₂ → tf₂ = tf) →
      baseKeyOf e s ∉ (disconnectReq st e s tf u).1.active) ∧
    ((∃ tf₂ p, tf₂ ≠ tf ∧ p ∈ st.subs ∧ p.1 = keyOf e s tf₂) →
      (disconnectReq st e s tf u).1.active = st.active) := by
  constructor
  · rintro ⟨v, hv, hvu⟩ honly
    unfold disconnectReq
    rw [if_neg hval]
    simp only [hv]
    rw [if_pos (by rw [hvu]; rfl)]
    have hno : hasOtherSubs (subsDelete st.subs (keyOf e s tf)) e s = false := by
      unfold hasOtherSubs
      rw [List.any_eq_false]
      intro p hp
      obtain ⟨hpm, hpk⟩ := List.mem_filter.mp hp
      obtain ⟨e', s', tf', hpe, he', hs'⟩ := hkeys p hpm
      intro hpre
      rw [hpe] at hpre
      obtain ⟨he2, hs2⟩ :=
        (exSymPre_prefix_keyOf_iff e s e' s' tf' he hs he' hs').mp hpre
      have htf : tf' = tf := honly p hpm tf' (by rw [hpe, ← he2, ← hs2])
      have hne : ¬ (p.1 = keyOf e s tf) := by simpa using hpk
      apply hne
      rw [hpe, ← he2, ← hs2, htf]
    rw [if_neg (by rw [hno]; simp)]
    simp [List.mem_filter]
  · rintro ⟨tf₂, p, htfne, hp, hpk⟩
    unfold disconnectReq
    rw [if_neg hval]
    cases hl : mapLookup st.subs (keyOf e s tf) with
    | none => simp only [hl]
    | some v =>
      simp only [hl]
      by_cases hz : (v.erase u).length = 0
      · rw [if_pos hz]
        have hyes : hasOtherSubs (subsDelete st.subs (keyOf e s tf)) e s
            = true := by
          unfold hasOtherSubs
          rw [List.any_eq_true]
          refine ⟨p, List.mem_filter.mpr ⟨hp, ?_⟩, ?_⟩
          · simp only [Bool.not_eq_eq_eq_not, Bool.not_true, beq_eq_false_iff_ne]
            rw [hpk]
            exact fun hcontra => htfne (keyOf_tf_inj hcontra)
          · rw [hpk, keyOf_eq_pre_append]
            exact List.isPrefixOf_iff_prefix.mpr (List.prefix_append _ _)
        rw [if_pos hyes]
      · rw [if_neg hz]

/-- Witness for the amended C4: unsubscribing the only subscriber of a
hyphen-free pair removes the registered connection. -/
theorem c4_pair_teardown_hyphen_free_instance :
    baseKeyOf "binance".data "BTCUSDT".data ∉
      (disconnectReq
        ⟨[(keyOf "binance".data "BTCUSDT".data "1m".data, ["u1".data])],
          [baseKeyOf "binance".data "BTCUSDT".data], []⟩
        "binance".data "BTCUSDT".data "1m".data "u1".data).1.active := by
  have h := c4_pair_teardown_hyphen_free
    ⟨[(keyOf "binance".data "BTCUSDT".data "1m".data, ["u1".data])],
      [baseKeyOf "binance".data "BTCUSDT".data], []⟩
    "binance".data "BTCUSDT".data "1m".data "u1".data
    (by decide) (by decide) (by decide)
    (fun p hp => ⟨"binance".data, "BTCUSDT".data, "1m".data, by
        have hp' : p = (keyOf "binance".data "BTCUSDT".data "1m".data,
            ["u1".data]) := by simpa using hp
        rw [hp'], by decide, by decide⟩)
  refine h.1 ⟨["u1".data], by decide, by decide⟩ ?_
  intro p hp tf₂ hk
  have hp' : p = (keyOf "binance".data "BTCUSDT".data "1m".data,
      ["u1".data]) := by simpa using hp
  rw [hp'] at hk
  exact (keyOf_tf_inj hk).symm

/-- C8 (amended): a reconnect is scheduled 5000 ms after a socket close, and
the check for remaining interest runs against the subscription registry as
it is when the timer fires (the JS callback reads the live
`userSubscriptions` map, so the decision is a function of the fire-time
state alone). The re-evaluated check is, however, the textual
`exchange-symbol-` prefix scan, which coincides with subscriber interest in
the (exchange, symbol) pair only for hyphen-free fields: when the request
fields and the fields underlying every registry key are hyphen-free, no
remaining subscriber interest in the pair at fire time means no new
connection attempt (the state is untouched), and remaining interest in the
pair means a reconnect attempt (a socket is created when the key is
unregistered and the exchange supported); with hyphen-containing fields the
scan can misattribute interest from a different pair and reconnect anyway. -/
theorem c8_reconnect_timer_hyphen_free (e s : Str)
    (he : '-' ∉ e) (hs : '-' ∉ s) :
    closeDelayMs = 5000 ∧
    (∀ st : SysState,
      (∀ p ∈ st.subs, ∃ e' s' tf', p.1 = keyOf e' s' tf' ∧
        '-' ∉ e' ∧ '-' ∉ s') →
      ¬(∃ p ∈ st.subs, p.2 ≠ [] ∧ ∃ tf', p.1 = keyOf e s tf') →
      reconnectTimerFire st e s = st) ∧
    (∀ st : SysState,
      (∃ p ∈ st.subs, p.2 ≠ [] ∧ ∃ tf', p.1 = keyOf e s tf') →
      supportedExchange e = true → baseKeyOf e s ∉ st.active →
      (reconnectTimerFire st e s).sockets
        = st.sockets ++ [(baseKeyOf e s, false)]) := by
  refine ⟨rfl, ?_, ?_⟩
  · intro st hkeys hno
    have hF : hasInterest st.subs e s = false := by
      unfold hasInterest
      rw [List.any_eq_false]
      intro p hp hpred
      rw [Bool.and_eq_true] at hpred
      obtain ⟨hpre, hlen⟩ := hpred
      obtain ⟨e', s', tf', hpe, he', hs'⟩ := hkeys p hp
      rw [hpe] at hpre
      obtain ⟨he2, hs2⟩ :=
        (exSymPre_prefix_keyOf_iff e s e' s' tf' he hs he' hs').mp hpre
      refine hno ⟨p, hp, ?_, tf', ?_⟩
      · intro hnil
        rw [hnil] at hlen
        simp at hlen
      · rw [hpe, ← he2, ← hs2]
    simp [reconnectTimerFire, hF]
  · intro st hex hsup hmem
    obtain ⟨p, hp, hne, tf', hpk⟩ := hex
    have hT : hasInterest st.subs e s = true := by
      unfold hasInterest
      rw [List.any_eq_true]
      refine ⟨p, hp, ?_⟩
      rw [Bool.and_eq_true]
      refine ⟨?_, ?_⟩
      · rw [hpk, keyOf_eq_pre_append]
        exact List.isPrefixOf_iff_prefix.mpr (List.prefix_append _ _)
      · exact decide_eq_true (List.length_pos.mpr hne)
    simp [reconnectTimerFire, hT, connectExchange, hmem, hsup]

/-- Witness for the amended C8: with a hyphen-free registry holding only a
(binance, BTCUSDT) subscription, the fired timer for (binance, ETHUSDT)
makes no connection attempt, while the fired timer for (binance, BTCUSDT)
creates a socket. -/
theorem c8_reconnect_timer_hyphen_free_instance :
    closeDelayMs = 5000 ∧
    reconnectTimerFire
        ⟨[(keyOf "binance".data "BTCUSDT".data "1m".data, ["u1".data])],
          [], []⟩
        "binance".data "ETHUSDT".data
      = ⟨[(keyOf "binance".data "BTCUSDT".data "1m".data, ["u1".data])],
          [], []⟩ ∧
    (reconnectTimerFire
        ⟨[(keyOf "binance".data "BTCUSDT".data "1m".data, ["u1".data])],
          [], []⟩
        "binance".data "BTCUSDT".data).sockets
      = [(baseKeyOf "binance".data "BTCUSDT".data, false)] :=
  ⟨(c8_reconnect_timer_hyphen_free "binance".data "BTCUSDT".data
      (by decide) (by decide)).1,
    (c8_reconnect_timer_hyphen_free "binance".data "ETHUSDT".data
        (by decide) (by decide)).2.1
      ⟨[(keyOf "binance".data "BTCUSDT".data "1m".data, ["u1".data])], [], []⟩
      (fun p hp => ⟨"binance".data, "BTCUSDT".data, "1m".data, by
          have hp' : p = (keyOf "binance".data "BTCUSDT".data "1m".data,
              ["u1".data]) := by simpa using hp
          rw [hp'], by decide, by decide⟩)
      (by
        rintro ⟨p, hp, hne, tf', hpk⟩
        have hp' : p = (keyOf "binance".data "BTCUSDT".data "1m".data,
            ["u1".data]) := by simpa using hp
        rw [hp'] at hpk
        exact absurd (keyOf_sym_inj (by decide) (by decide) hpk) (by decide)),
    (c8_reconnect_timer_hyphen_free "binance".data "BTCUSDT".data
        (by decide) (by decide)).2.2
      ⟨[(keyOf "binance".data "BTCUSDT".data "1m".data, ["u1".data])], [], []⟩
      ⟨(keyOf "binance".data "BTCUSDT".data "1m".data, ["u1".data]),
        by decide, by decide, "1m".data, rfl⟩
      (by decide) (by decide)⟩

end CoinTop
